import Mathlib

/-!
Verification development for the OpenWrt network-statistics collector
(`main.go`).  The Go source is shallowly embedded: each Go function that a
claim touches is translated to an executable Lean definition over lists and
unbounded integers.  SQLite tables become lists of row structures; Go `int64`
values are modelled as `Int` (all values reaching the arithmetic come from
`strconv.ParseInt` with bit size 64, whose range checks are modelled
explicitly); timestamps of the fixed format `YYYY-MM-DD HH:MM:SS` are
modelled as a year/month/rest triple whose lexicographic order coincides with
the lexicographic order on the formatted strings.
-/

/-! ## Character classes

`isGoSpace` models `unicode.IsSpace` restricted to ASCII (the inputs here are
router text dumps; the MAC/byte-count/lease fields are ASCII), as used by
`strings.Fields` and `strings.TrimSpace`.  `isRegexSpace` models the Go
regexp class `\s`, which is `[\t\n\f\r ]` (no vertical tab). -/

def isGoSpace (c : Char) : Bool :=
  c == ' ' || c == '\t' || c == '\n' || c == '\x0b' || c == '\x0c' || c == '\r'

def isRegexSpace (c : Char) : Bool :=
  c == ' ' || c == '\t' || c == '\n' || c == '\x0c' || c == '\r'

/-- The Go regexp classes `[0-9a-fA-F:]` and `[\d0-9a-fA-F:]` (identical sets),
used for the MAC-address and client-id groups of the DHCP lease pattern. -/
def isHexColonChar (c : Char) : Bool :=
  c.isDigit || ('a' ≤ c && c ≤ 'f') || ('A' ≤ c && c ≤ 'F') || c == ':'

/-- The Go regexp class `[\d\.]` used for the IP group of the lease pattern. -/
def isIPChar (c : Char) : Bool :=
  c.isDigit || c == '.'

/-! ## Go string helpers -/

/-- Accumulator loop for `strings.Fields`: split around maximal runs of
whitespace, dropping empty fields. -/
def fieldsGo : List Char → List Char → List (List Char)
  | [], acc => if acc.isEmpty then [] else [acc.reverse]
  | c :: cs, acc =>
    if isGoSpace c then
      if acc.isEmpty then fieldsGo cs [] else acc.reverse :: fieldsGo cs []
    else
      fieldsGo cs (c :: acc)

/-- `strings.Fields` on a single line (ASCII whitespace). -/
def fields (cs : List Char) : List (List Char) :=
  fieldsGo cs []

/-- `strings.TrimSpace` (ASCII whitespace). -/
def trimGo (cs : List Char) : List Char :=
  ((cs.dropWhile isGoSpace).reverse.dropWhile isGoSpace).reverse

/-- Accumulator loop for `strings.Split(s, "\n")`: empty pieces are kept. -/
def splitLinesGo : List Char → List Char → List (List Char)
  | [], acc => [acc.reverse]
  | c :: cs, acc =>
    if c == '\n' then acc.reverse :: splitLinesGo cs []
    else splitLinesGo cs (c :: acc)

/-- `strings.Split(s, "\n")`. -/
def splitLines (cs : List Char) : List (List Char) :=
  splitLinesGo cs []

/-- Numeric value of a run of decimal digit characters. -/
def digitsToNat (ds : List Char) : Nat :=
  ds.foldl (fun a c => 10 * a + (c.toNat - 48)) 0

/-- Core of `strconv.ParseInt(s, 10, 64)` after the optional sign has been
consumed: a non-empty all-digit string whose value fits the signed 64-bit
range (`≤ 2^63` for negative values, `< 2^63` otherwise) parses; anything
else is an error (`none`). -/
def goParseInt64Core (neg : Bool) (ds : List Char) : Option Int :=
  if ds.isEmpty || !ds.all Char.isDigit then none
  else if neg then
    if digitsToNat ds ≤ 2 ^ 63 then some (-(digitsToNat ds : Int)) else none
  else
    if digitsToNat ds < 2 ^ 63 then some (digitsToNat ds : Int) else none

/-- `strconv.ParseInt(s, 10, 64)`: optional leading sign, then decimal
digits, with the signed 64-bit range check. -/
def goParseInt64 (cs : List Char) : Option Int :=
  match cs with
  | [] => none
  | c :: rest =>
    if c == '-' then goParseInt64Core true rest
    else if c == '+' then goParseInt64Core false rest
    else goParseInt64Core false (c :: rest)

/-! ## Data structs (from main.go) -/

structure ClientStats where
  MACAddress : String
  RXBytes : Int
  TXBytes : Int
deriving DecidableEq

structure DHCPLease where
  MACAddress : String
  LeaseEndTime : Int
  IPAddress : String
  Hostname : String
  ClientID : String
deriving DecidableEq

/-- Outcome of `parseWANStats` (a `(*WANStats, error)` pair in Go):
`noData` is the `(nil, nil)` result for empty input, `stats` the success,
`errPatternNotFound` the "WAN stats pattern not found" error and
`errRange` the `strconv.ParseInt` failure on an out-of-range number. -/
inductive WANParse where
  | noData
  | stats (rx tx : Int)
  | errPatternNotFound
  | errRange
deriving DecidableEq

/-! ## parseWiFiStats -/

/-- One iteration of the `parseWiFiStats` loop body: a line with exactly
three whitespace-separated fields whose second and third fields parse as
`int64` yields a record (MAC lowercased); any other line is skipped. -/
def parseClientLine (line : List Char) : Option ClientStats :=
  match fields line with
  | [p0, p1, p2] =>
    match goParseInt64 p1 with
    | none => none
    | some rx =>
      match goParseInt64 p2 with
      | none => none
      | some tx => some ⟨String.mk (p0.map Char.toLower), rx, tx⟩
  | _ => none

/-- `parseWiFiStats`: empty input yields no records and no error; otherwise
the trimmed input is split on newlines and each line is parsed
independently, skipped lines contributing nothing. -/
def parseWiFiStats (data : String) : List ClientStats :=
  if data == "" then []
  else (splitLines (trimGo data.toList)).filterMap parseClientLine

/-! ## parseWANStats

The Go regexp is `wan:\s+(\d+)\s+(\d+)` with leftmost-first search.  Because
the character classes of adjacent pieces are disjoint (`\s` never matches a
digit and conversely), every greedy quantifier is forced to its maximal run,
so the match attempt at a given start position is deterministic:
literal `wan:`, a non-empty whitespace run, a non-empty digit run, a
non-empty whitespace run and a non-empty digit run.  `findWan` scans the
start positions left to right, exactly as the regexp engine does. -/

/-- The part of the WAN pattern after the literal `wan:`. -/
def wanTail (rest : List Char) : Option (List Char × List Char) :=
  if (rest.takeWhile isRegexSpace).isEmpty then none
  else
    let r1 := rest.dropWhile isRegexSpace
    let d1 := r1.takeWhile Char.isDigit
    if d1.isEmpty then none
    else
      let r2 := r1.dropWhile Char.isDigit
      if (r2.takeWhile isRegexSpace).isEmpty then none
      else
        let r3 := r2.dropWhile isRegexSpace
        let d2 := r3.takeWhile Char.isDigit
        if d2.isEmpty then none else some (d1, d2)

/-- Attempt of the WAN pattern anchored at the beginning of the input. -/
def matchWanAt (cs : List Char) : Option (List Char × List Char) :=
  match cs with
  | c0 :: c1 :: c2 :: c3 :: rest =>
    if c0 == 'w' && c1 == 'a' && c2 == 'n' && c3 == ':' then wanTail rest
    else none
  | _ => none

/-- Leftmost match of the WAN pattern: the two captured digit runs of the
first start position at which the pattern matches. -/
def findWan : List Char → Option (List Char × List Char)
  | [] => none
  | c :: cs =>
    match matchWanAt (c :: cs) with
    | some m => some m
    | none => findWan cs

/-- `parseWANStats`: empty input is the `(nil, nil)` "no data" result; a
non-empty input without the pattern is the "pattern not found" error; on a
match the two captured numbers are parsed with `strconv.ParseInt`, an
out-of-range number turning the result into a parse error. -/
def parseWANStats (data : String) : WANParse :=
  if data == "" then WANParse.noData
  else
    match findWan data.toList with
    | none => WANParse.errPatternNotFound
    | some (d1, d2) =>
      match goParseInt64 d1 with
      | none => WANParse.errRange
      | some rx =>
        match goParseInt64 d2 with
        | none => WANParse.errRange
        | some tx => WANParse.stats rx tx

/-! ## parseDHCPLeases

The Go regexp is
`^(\d+)\s+([0-9a-fA-F:]{17})\s+([\d\.]+)\s+(.*?)\s+([\d0-9a-fA-F:]+)$`
with Perl (leftmost-first, backtracking-order) semantics.  Up to the group
before the hostname every greedy quantifier is forced to its maximal run
because adjacent character classes are disjoint; `{17}` is a fixed width.
Write the text after the IP group as a maximal whitespace run `w` (length
k ≥ 1) followed by `R` (whose head is not whitespace).  The engine first
tries the `\s+` before the hostname at its full length k; the lazy `(.*?)`
then takes the shortest prefix `A` of `R` such that what follows `A` is a
non-empty whitespace run followed by a non-empty run of `[\d0-9a-fA-F:]`
characters extending to the end of the line (the trailing `\s+` and class
run are forced, since a whitespace character can never head the class
run).  Because `.` also matches a space, a failure of that whole search
does backtrack the greedy `\s+` to k-1: the hostname group then matches
empty, the `\s+` after it consumes the leftover whitespace, and the
client-id group must be exactly `R`, so this rescue succeeds precisely
when k ≥ 2 and `R` is a non-empty all-class run.  Shrinking the run
further, or growing `A` over leftover whitespace, only reproduces
conditions already tried (the hostname-split condition depends only on the
suffix after `A`), so these two phases are the exact match function of the
pattern. -/

/-- Lazy search for the hostname group within the max-munched remainder:
grow the captured prefix one character at a time until the rest of the
line is whitespace followed by a non-empty run of client-id characters
reaching the end. -/
def findHostSplit : List Char → List Char → Option (List Char × List Char)
  | _, [] => none
  | acc, x :: xs =>
    let w := (x :: xs).takeWhile isRegexSpace
    let c := (x :: xs).dropWhile isRegexSpace
    if !w.isEmpty && !c.isEmpty && c.all isHexColonChar then
      some (acc.reverse, c)
    else
      findHostSplit (x :: acc) xs

/-- The five captured groups of the IPv4 lease pattern. -/
structure LeaseMatch where
  etime : List Char
  mac : List Char
  ip : List Char
  host : List Char
  cid : List Char
deriving DecidableEq

/-- Full-line match of the IPv4 lease pattern (`FindStringSubmatch` on one
line, the pattern being anchored on both sides). -/
def leaseMatchLine (line : List Char) : Option LeaseMatch :=
  let d := line.takeWhile Char.isDigit
  if d.isEmpty then none
  else
    let r1 := line.dropWhile Char.isDigit
    if (r1.takeWhile isRegexSpace).isEmpty then none
    else
      let r2 := r1.dropWhile isRegexSpace
      let mac := r2.take 17
      if !(mac.length == 17 && mac.all isHexColonChar) then none
      else
        let r3 := r2.drop 17
        if (r3.takeWhile isRegexSpace).isEmpty then none
        else
          let r4 := r3.dropWhile isRegexSpace
          let ip := r4.takeWhile isIPChar
          if ip.isEmpty then none
          else
            let r5 := r4.dropWhile isIPChar
            if (r5.takeWhile isRegexSpace).isEmpty then none
            else
              let r6 := r5.dropWhile isRegexSpace
              match findHostSplit [] r6 with
              | some (a, c) => some ⟨d, mac, ip, a, c⟩
              | none =>
                if 2 ≤ (r5.takeWhile isRegexSpace).length ∧ r6 ≠ [] ∧
                    r6.all isHexColonChar = true then
                  some ⟨d, mac, ip, [], r6⟩
                else none

/-- Loop body of `parseDHCPLeases` for one line: on a pattern match, parse
the lease end time (skipping the line on an out-of-range value), lowercase
the MAC, trim the hostname group, replace a literal `*` hostname by
`Unknown` and otherwise keep only its first whitespace-delimited token. -/
def parseLeaseLine (line : List Char) : Option DHCPLease :=
  match leaseMatchLine line with
  | none => none
  | some m =>
    match goParseInt64 m.etime with
    | none => none
    | some t =>
      let h0 := trimGo m.host
      let hostname : String :=
        if h0 == ['*'] then "Unknown"
        else
          match fields h0 with
          | [] => String.mk h0
          | t0 :: _ => String.mk t0
      some ⟨String.mk (m.mac.map Char.toLower), t, String.mk m.ip, hostname,
            String.mk m.cid⟩

/-- `parseDHCPLeases`: empty input yields no leases and no error; otherwise
each line of the trimmed input is matched independently, non-matching lines
being skipped. -/
def parseDHCPLeases (data : String) : List DHCPLease :=
  if data == "" then []
  else (splitLines (trimGo data.toList)).filterMap parseLeaseLine

/-! ## Database model

`monthly_stats` rows carry a `timestamp` TEXT column of the fixed format
`YYYY-MM-DD HH:MM:SS`; on strings of this shape SQLite's `ORDER BY
timestamp DESC LIMIT 1` returns the lexicographically greatest string,
which is the one with the lexicographically greatest
(year, month, day-and-time) triple.  `Timestamp` keeps the year and month
explicit (the reset decision reads them through `time.Parse` /
`Month()` / `Year()`) and packs the day-and-time remainder into `rest`. -/

structure Timestamp where
  year : Nat
  month : Nat
  rest : Nat
deriving DecidableEq

/-- Lexicographic order of the formatted timestamp strings. -/
def Timestamp.leB (a b : Timestamp) : Bool :=
  decide (a.year < b.year ∨ (a.year = b.year ∧
    (a.month < b.month ∨ (a.month = b.month ∧ a.rest ≤ b.rest))))

/-- A row of the `cumulative_stats` table (`id` is the primary key). -/
structure CumulativeRow where
  id : String
  rx : Int
  tx : Int
deriving DecidableEq

/-- A row of the `monthly_stats` table (`id` is the primary key). -/
structure MonthlyRow where
  id : String
  rx : Int
  tx : Int
  ts : Timestamp
deriving DecidableEq

/-- The `network_stats.db` database. -/
structure StatsDB where
  cumulative : List CumulativeRow
  monthly : List MonthlyRow
deriving DecidableEq

/-- `updateTrafficStats` as a state transformer, also returning the
incremental delta the call computed.

In the source, the error of the cumulative-row query (line 385) is
overwritten by the monthly-count query (line 389) before it is compared
against `sql.ErrNoRows` (line 405), so the dedicated first-run branch is
unreachable; when no cumulative row exists, `lastRX`/`lastTX` keep their
zero initial values and the general branch runs.  The `none => (0, 0)`
case below models exactly that behaviour (which still makes the first
delta equal the observed value).  `INSERT OR REPLACE` removes any row with
the conflicting key and inserts the new one. -/
def updateTrafficStats (db : StatsDB) (now : Timestamp) (entityID : String)
    (newRX newTX : Int) : StatsDB × (Int × Int) :=
  let lastRow := db.cumulative.find? (fun r => r.id == entityID)
  let monthly1 :=
    if (db.monthly.find? (fun r => r.id == entityID)).isNone then
      db.monthly ++ [⟨entityID, 0, 0, now⟩]
    else db.monthly
  let last : Int × Int :=
    match lastRow with
    | none => (0, 0)
    | some c => (c.rx, c.tx)
  let incrementalRX := if newRX ≥ last.1 then newRX - last.1 else newRX
  let incrementalTX := if newTX ≥ last.2 then newTX - last.2 else newTX
  let monthly2 := monthly1.map (fun r =>
    if r.id == entityID then ⟨r.id, r.rx + incrementalRX, r.tx + incrementalTX, now⟩
    else r)
  let cumulative2 := db.cumulative.filter (fun r => !(r.id == entityID)) ++
    [⟨entityID, newRX, newTX⟩]
  (⟨cumulative2, monthly2⟩, (incrementalRX, incrementalTX))

/-- The monthly total stored for an entity ((0, 0) when no row exists). -/
def monthVal (db : StatsDB) (i : String) : Int × Int :=
  match db.monthly.find? (fun r => r.id == i) with
  | none => (0, 0)
  | some r => (r.rx, r.tx)

/-- `SELECT timestamp FROM monthly_stats ORDER BY timestamp DESC LIMIT 1`:
the greatest stored timestamp, `none` on an empty table. -/
def lastUpdateTs : List MonthlyRow → Option Timestamp
  | [] => none
  | r :: rs =>
    match lastUpdateTs rs with
    | none => some r.ts
    | some t => some (if Timestamp.leB t r.ts then r.ts else t)

/-- `resetMonthlyStats`: nothing happens on an empty table; otherwise the
greatest stored timestamp is compared with the current moment and, when its
month or year differs, every row is zeroed and restamped in one UPDATE. -/
def resetMonthlyStats (db : StatsDB) (now : Timestamp) : StatsDB :=
  match lastUpdateTs db.monthly with
  | none => db
  | some t =>
    if t.month == now.month && t.year == now.year then db
    else ⟨db.cumulative, db.monthly.map (fun r => ⟨r.id, 0, 0, now⟩)⟩

/-- A row of the `dhcp_leases` table (`mac_address` is the primary key). -/
structure LeaseRow where
  mac : String
  leaseEnd : Int
  ip : String
  hostname : String
  clientID : String
  ts : Timestamp
deriving DecidableEq

/-- `upsertDHCPLeases`: an empty batch returns before touching the
database; otherwise each lease is INSERT-OR-REPLACEd in order, all stamped
with the one timestamp taken at the start of the batch. -/
def upsertDHCPLeases (rows : List LeaseRow) (now : Timestamp)
    (leases : List DHCPLease) : List LeaseRow :=
  if leases.isEmpty then rows
  else
    leases.foldl (fun acc l =>
      acc.filter (fun r => !(r.mac == l.MACAddress)) ++
        [⟨l.MACAddress, l.LeaseEndTime, l.IPAddress, l.Hostname, l.ClientID, now⟩])
      rows

/-! ## One polling cycle

In `main`, `resetMonthlyStats` is called (line 548) strictly before the
per-router goroutines are spawned (line 557), and every
`updateTrafficStats` call happens inside one of those goroutines, all
serialized by `dbMutex`.  A cycle is therefore the reset pass followed by
some serialization of the cycle's update calls; `Obs` is one such call
(entity id, observed counters and the wall-clock moment of the call). -/

structure Obs where
  id : String
  rx : Int
  tx : Int
  ts : Timestamp
deriving DecidableEq

/-- Run a serialized sequence of `updateTrafficStats` calls, collecting the
delta each call computed together with its entity id. -/
def runUpdates : StatsDB → List Obs → StatsDB × List (String × Int × Int)
  | db, [] => (db, [])
  | db, o :: rest =>
    let r := updateTrafficStats db o.ts o.id o.rx o.tx
    let next := runUpdates r.1 rest
    (next.1, (o.id, r.2.1, r.2.2) :: next.2)

/-- One polling cycle: the month-reset pass, then the cycle's updates. -/
def runCycle (db : StatsDB) (now : Timestamp) (obs : List Obs) :
    StatsDB × List (String × Int × Int) :=
  runUpdates (resetMonthlyStats db now) obs

/-- Componentwise sum of the deltas recorded for one entity. -/
def sumDeltasFor (i : String) (ds : List (String × Int × Int)) : Int × Int :=
  ds.foldr (fun d acc => if d.1 == i then (d.2.1 + acc.1, d.2.2 + acc.2) else acc)
    (0, 0)

/-! ## Helper lemmas -/

/-- A map by an id-preserving function commutes with the keyed lookup. -/
theorem find?_map_of_idPres (g : MonthlyRow → MonthlyRow)
    (hg : ∀ r, (g r).id = r.id) (l : List MonthlyRow) (i : String) :
    (l.map g).find? (fun r => r.id == i) = (l.find? (fun r => r.id == i)).map g := by
  rw [List.find?_map]
  have hp : ((fun r : MonthlyRow => r.id == i) ∘ g) = (fun r => r.id == i) := by
    funext r
    simp [Function.comp, hg r]
  rw [hp]

/-- Looking a key up among the rows from which it was filtered out fails. -/
theorem find?_filter_ne_none (l : List CumulativeRow) (i : String) :
    (l.filter (fun r => !(r.id == i))).find? (fun r => r.id == i) = none := by
  rw [List.find?_filter]
  refine List.find?_eq_none.mpr ?_
  intro x _
  by_cases h : x.id == i <;> simp [h]

/-- The monthly-table rewrite performed by one `updateTrafficStats` call. -/
theorem updateTrafficStats_monthly (db : StatsDB) (now : Timestamp) (i : String)
    (nrx ntx : Int) :
    (updateTrafficStats db now i nrx ntx).1.monthly =
      (if (db.monthly.find? (fun r => r.id == i)).isNone then
          db.monthly ++ [⟨i, 0, 0, now⟩]
        else db.monthly).map
        (fun r =>
          if r.id == i then
            ⟨r.id, r.rx + (updateTrafficStats db now i nrx ntx).2.1,
             r.tx + (updateTrafficStats db now i nrx ntx).2.2, now⟩
          else r) := rfl

/-- One update call adds exactly its own delta to the entity's monthly
total. -/
theorem monthVal_update_self (db : StatsDB) (now : Timestamp) (i : String)
    (nrx ntx : Int) :
    monthVal (updateTrafficStats db now i nrx ntx).1 i =
      ((monthVal db i).1 + (updateTrafficStats db now i nrx ntx).2.1,
       (monthVal db i).2 + (updateTrafficStats db now i nrx ntx).2.2) := by
  have hg : ∀ r : MonthlyRow,
      ((fun r : MonthlyRow =>
        if r.id == i then
          (⟨r.id, r.rx + (updateTrafficStats db now i nrx ntx).2.1,
            r.tx + (updateTrafficStats db now i nrx ntx).2.2, now⟩ : MonthlyRow)
        else r) r).id = r.id := by
    intro r
    by_cases h : r.id == i <;> simp [h]
  unfold monthVal
  rw [updateTrafficStats_monthly, find?_map_of_idPres _ hg]
  cases h : db.monthly.find? (fun r => r.id == i) with
  | none => simp [List.find?_append, h]
  | some r =>
    have hr : r.id = i := by simpa using List.find?_some h
    simp [h, hr]

/-- An update call for one entity leaves every other entity's monthly
total unchanged. -/
theorem monthVal_update_other (db : StatsDB) (now : Timestamp) (i : String)
    (nrx ntx : Int) (j : String) (hj : j ≠ i) :
    monthVal (updateTrafficStats db now i nrx ntx).1 j = monthVal db j := by
  have hg : ∀ r : MonthlyRow,
      ((fun r : MonthlyRow =>
        if r.id == i then
          (⟨r.id, r.rx + (updateTrafficStats db now i nrx ntx).2.1,
            r.tx + (updateTrafficStats db now i nrx ntx).2.2, now⟩ : MonthlyRow)
        else r) r).id = r.id := by
    intro r
    by_cases h : r.id == i <;> simp [h]
  unfold monthVal
  rw [updateTrafficStats_monthly, find?_map_of_idPres _ hg]
  have hnew : (([⟨i, 0, 0, now⟩] : List MonthlyRow).find? (fun r => r.id == j)) = none := by
    have hb : (i == j) = false := beq_eq_false_iff_ne.mpr (Ne.symm hj)
    simp [List.find?, hb]
  cases hm : db.monthly.find? (fun r => r.id == i) with
  | none =>
    simp only [Option.isNone_none, if_true, List.find?_append, hnew, Option.or_none]
    cases hfj : db.monthly.find? (fun r => r.id == j) with
    | none => rfl
    | some r =>
      have hr := List.find?_some hfj
      have hne : r.id ≠ i := by
        have : r.id = j := by simpa using hr
        rw [this]
        exact hj
      simp [hne]
  | some r0 =>
    simp only [Option.isNone_some, Bool.false_eq_true, if_false]
    cases hfj : db.monthly.find? (fun r => r.id == j) with
    | none => rfl
    | some r =>
      have hr := List.find?_some hfj
      have hne : r.id ≠ i := by
        have : r.id = j := by simpa using hr
        rw [this]
        exact hj
      simp [hne]

/-- Over a serialized run of update calls, each entity's monthly total
grows by exactly the sum of the deltas the calls for that entity
computed. -/
theorem monthVal_runUpdates (obs : List Obs) :
    ∀ (db : StatsDB) (i : String),
      monthVal (runUpdates db obs).1 i =
        ((monthVal db i).1 + (sumDeltasFor i (runUpdates db obs).2).1,
         (monthVal db i).2 + (sumDeltasFor i (runUpdates db obs).2).2) := by
  induction obs with
  | nil =>
    intro db i
    simp [runUpdates, sumDeltasFor]
  | cons o rest ih =>
    intro db i
    simp only [runUpdates]
    rw [ih]
    by_cases h : o.id == i
    · have hid : o.id = i := by simpa using h
      rw [← hid]
      rw [monthVal_update_self]
      simp [sumDeltasFor, add_assoc]
    · have hne : o.id ≠ i := by simpa using h
      rw [monthVal_update_other _ _ _ _ _ _ (Ne.symm hne)]
      simp [sumDeltasFor, hne]

/-- C1: for every call of updateTrafficStats, the computed delta is,
independently for rx and tx, the observed value when no cumulative row
exists (in the source this case runs through the general branch with the
zero-initialized lastRX/lastTX, since the ErrNoRows test reads an already
overwritten error, so the delta still equals the full observed value,
including observed (0, 0)); observed minus stored when the observed
component is at least the stored one; and the observed component alone
when the observed component is smaller; and in every case the cumulative
row afterwards stores exactly the observed value. -/
theorem update_traffic_delta_and_cumulative (db : StatsDB) (now : Timestamp)
    (i : String) (nrx ntx : Int) :
    (updateTrafficStats db now i nrx ntx).1.cumulative.find? (fun r => r.id == i) =
        some ⟨i, nrx, ntx⟩ ∧
    (updateTrafficStats db now i nrx ntx).2 =
      (match db.cumulative.find? (fun r => r.id == i) with
       | none => (nrx, ntx)
       | some c =>
         (if nrx ≥ c.rx then nrx - c.rx else nrx,
          if ntx ≥ c.tx then ntx - c.tx else ntx)) := by
  constructor
  · have hc : (updateTrafficStats db now i nrx ntx).1.cumulative =
        db.cumulative.filter (fun r => !(r.id == i)) ++ [⟨i, nrx, ntx⟩] := rfl
    rw [hc, List.find?_append, find?_filter_ne_none]
    simp [List.find?]
  · cases h : db.cumulative.find? (fun r => r.id == i) with
    | none =>
      simp only [updateTrafficStats, h, Prod.mk.injEq]
      constructor <;> split_ifs <;> omega
    | some c =>
      simp only [updateTrafficStats, h]

/-- C2: starting from a monthly total of (0, 0) for an entity (no row yet,
or the zeroed row a month-reset leaves), any serialized sequence of update
calls leaves that entity's monthly total equal to the componentwise sum of
the deltas the calls for that entity computed; and when no monthly row
exists, a call first creates the row as (0, 0) and then applies its delta
to it, so the delta is never applied to a nonexistent row. -/
theorem monthly_total_is_sum_of_deltas (db : StatsDB) (obs : List Obs)
    (i : String) (now1 : Timestamp) (nrx ntx : Int) :
    (monthVal db i = (0, 0) →
      monthVal (runUpdates db obs).1 i = sumDeltasFor i (runUpdates db obs).2) ∧
    (db.monthly.find? (fun r => r.id == i) = none →
      (updateTrafficStats db now1 i nrx ntx).1.monthly.find? (fun r => r.id == i) =
        some ⟨i, (updateTrafficStats db now1 i nrx ntx).2.1,
              (updateTrafficStats db now1 i nrx ntx).2.2, now1⟩) := by
  constructor
  · intro h0
    rw [monthVal_runUpdates, h0]
    simp
  · intro hnone
    have hg : ∀ r : MonthlyRow,
        ((fun r : MonthlyRow =>
          if r.id == i then
            (⟨r.id, r.rx + (updateTrafficStats db now1 i nrx ntx).2.1,
              r.tx + (updateTrafficStats db now1 i nrx ntx).2.2, now1⟩ : MonthlyRow)
          else r) r).id = r.id := by
      intro r
      by_cases h : r.id == i <;> simp [h]
    rw [updateTrafficStats_monthly, find?_map_of_idPres _ hg]
    simp [hnone, List.find?_append, List.find?]

/-- Witness for C2 at a concrete database and call sequence. -/
theorem monthly_total_is_sum_of_deltas_witness :
    monthVal ⟨[], []⟩ "e" = (0, 0) ∧
    (StatsDB.monthly ⟨[], []⟩).find? (fun r => r.id == "e") = none ∧
    monthVal (runUpdates ⟨[], []⟩
      [⟨"e", 100, 50, ⟨2025, 10, 1⟩⟩, ⟨"e", 250, 80, ⟨2025, 10, 2⟩⟩]).1 "e" =
      sumDeltasFor "e" (runUpdates ⟨[], []⟩
        [⟨"e", 100, 50, ⟨2025, 10, 1⟩⟩, ⟨"e", 250, 80, ⟨2025, 10, 2⟩⟩]).2 ∧
    (updateTrafficStats ⟨[], []⟩ ⟨2025, 10, 1⟩ "e" 3 4).1.monthly.find?
        (fun r => r.id == "e") =
      some ⟨"e", (updateTrafficStats ⟨[], []⟩ ⟨2025, 10, 1⟩ "e" 3 4).2.1,
            (updateTrafficStats ⟨[], []⟩ ⟨2025, 10, 1⟩ "e" 3 4).2.2, ⟨2025, 10, 1⟩⟩ :=
  ⟨by decide, by decide,
   (monthly_total_is_sum_of_deltas ⟨[], []⟩
     [⟨"e", 100, 50, ⟨2025, 10, 1⟩⟩, ⟨"e", 250, 80, ⟨2025, 10, 2⟩⟩]
     "e" ⟨2025, 10, 1⟩ 3 4).1 (by decide),
   (monthly_total_is_sum_of_deltas ⟨[], []⟩
     [⟨"e", 100, 50, ⟨2025, 10, 1⟩⟩, ⟨"e", 250, 80, ⟨2025, 10, 2⟩⟩]
     "e" ⟨2025, 10, 1⟩ 3 4).2 (by decide)⟩

/-- C4: over a whole polling cycle the month-reset pass is applied first
and every entity's final monthly total is the post-reset total plus the
sum of the cycle's deltas for that entity — the cycle's deltas are applied
on top of the reset decision, never before it.  (In the source the reset
call at line 548 returns before the goroutines performing the update calls
are spawned at line 557, so every serialization of a cycle has this
shape.) -/
theorem cycle_resets_before_applying_deltas (db : StatsDB) (now : Timestamp)
    (obs : List Obs) (i : String) :
    monthVal (runCycle db now obs).1 i =
      ((monthVal (resetMonthlyStats db now) i).1 +
        (sumDeltasFor i (runCycle db now obs).2).1,
       (monthVal (resetMonthlyStats db now) i).2 +
        (sumDeltasFor i (runCycle db now obs).2).2) := by
  unfold runCycle
  exact monthVal_runUpdates obs (resetMonthlyStats db now) i

/-! ## Timestamp order lemmas -/

theorem leB_refl (a : Timestamp) : Timestamp.leB a a = true := by
  simp [Timestamp.leB]

theorem leB_trans {a b c : Timestamp} (h1 : Timestamp.leB a b = true)
    (h2 : Timestamp.leB b c = true) : Timestamp.leB a c = true := by
  simp only [Timestamp.leB, decide_eq_true_eq] at h1 h2 ⊢
  omega

theorem leB_total (a b : Timestamp) :
    Timestamp.leB a b = true ∨ Timestamp.leB b a = true := by
  simp only [Timestamp.leB, decide_eq_true_eq]
  omega

/-- `lastUpdateTs` returns the greatest stored timestamp: an upper bound
attained by some row. -/
theorem lastUpdateTs_le (l : List MonthlyRow) (t : Timestamp)
    (h : lastUpdateTs l = some t) :
    (∀ r ∈ l, Timestamp.leB r.ts t = true) ∧ ∃ r ∈ l, r.ts = t := by
  induction l generalizing t with
  | nil => simp [lastUpdateTs] at h
  | cons r rs ih =>
    simp only [lastUpdateTs] at h
    cases hrs : lastUpdateTs rs with
    | none =>
      rw [hrs] at h
      have hrse : rs = [] := by
        cases rs with
        | nil => rfl
        | cons r2 rs2 =>
          simp only [lastUpdateTs] at hrs
          cases h2 : lastUpdateTs rs2 <;> simp [h2] at hrs
      have ht : r.ts = t := by injection h
      subst hrse
      exact ⟨by simp [ht, leB_refl], r, by simp, ht⟩
    | some t' =>
      rw [hrs] at h
      have hval : (if Timestamp.leB t' r.ts = true then r.ts else t') = t := by
        injection h
      obtain ⟨hub, r', hr', hts⟩ := ih t' hrs
      by_cases hc : Timestamp.leB t' r.ts = true
      · rw [if_pos hc] at hval
        have ht : r.ts = t := hval
        refine ⟨?_, r, by simp, ht⟩
        intro x hx
        rcases List.mem_cons.mp hx with he | hm
        · rw [he, ht]
          exact leB_refl t
        · rw [← ht]
          exact leB_trans (hub x hm) hc
      · rw [if_neg hc] at hval
        have ht : t' = t := hval
        have hrle : Timestamp.leB r.ts t' = true := by
          rcases leB_total t' r.ts with hlt | hge
          · exact absurd hlt hc
          · exact hge
        refine ⟨?_, r', List.mem_cons_of_mem _ hr', by rw [hts, ht]⟩
        intro x hx
        rcases List.mem_cons.mp hx with he | hm
        · rw [he, ← ht]
          exact hrle
        · rw [← ht]
          exact hub x hm

/-- C3: the reset pass bases its decision on the single greatest (i.e.
most recently written) stored timestamp; when that timestamp's calendar
month-and-year differ from the current moment, every monthly row is zeroed
and restamped with now in one pass (the cumulative table untouched), and
otherwise nothing changes. -/
theorem reset_consults_latest_timestamp (db : StatsDB) (now t : Timestamp)
    (hlast : lastUpdateTs db.monthly = some t) :
    ((∀ r ∈ db.monthly, Timestamp.leB r.ts t = true) ∧ ∃ r ∈ db.monthly, r.ts = t) ∧
    (t.month = now.month ∧ t.year = now.year → resetMonthlyStats db now = db) ∧
    (¬(t.month = now.month ∧ t.year = now.year) →
      (resetMonthlyStats db now).monthly =
        db.monthly.map (fun r => ⟨r.id, 0, 0, now⟩) ∧
      (resetMonthlyStats db now).cumulative = db.cumulative) := by
  refine ⟨lastUpdateTs_le _ _ hlast, ?_, ?_⟩
  · intro hsame
    have hb : (t.month == now.month && t.year == now.year) = true := by
      simp [hsame.1, hsame.2]
    simp [resetMonthlyStats, hlast, hb]
  · intro hdiff
    have hb : (t.month == now.month && t.year == now.year) = false := by
      rcases Decidable.not_and_iff_or_not.mp hdiff with hne | hne <;> simp [hne]
    simp [resetMonthlyStats, hlast, hb]

/-- Witness for C3 at a concrete two-row table whose latest timestamp lies
in the previous month. -/
theorem reset_consults_latest_timestamp_witness :
    lastUpdateTs [⟨"a", 5, 6, ⟨2025, 9, 3⟩⟩, ⟨"b", 7, 8, ⟨2025, 9, 99⟩⟩] =
      some ⟨2025, 9, 99⟩ ∧
    (resetMonthlyStats ⟨[], [⟨"a", 5, 6, ⟨2025, 9, 3⟩⟩, ⟨"b", 7, 8, ⟨2025, 9, 99⟩⟩]⟩
        ⟨2025, 10, 0⟩).monthly =
      [(⟨"a", 5, 6, ⟨2025, 9, 3⟩⟩ : MonthlyRow), ⟨"b", 7, 8, ⟨2025, 9, 99⟩⟩].map
        (fun r => ⟨r.id, 0, 0, ⟨2025, 10, 0⟩⟩) :=
  ⟨by decide,
   ((reset_consults_latest_timestamp
      ⟨[], [⟨"a", 5, 6, ⟨2025, 9, 3⟩⟩, ⟨"b", 7, 8, ⟨2025, 9, 99⟩⟩]⟩
      ⟨2025, 10, 0⟩ ⟨2025, 9, 99⟩ (by decide)).2.2 (by decide)).1⟩

/-- After a reset pass has zeroed and restamped every row with `now`, the
greatest stored timestamp is `now`. -/
theorem lastUpdateTs_map_const (now : Timestamp) (l : List MonthlyRow)
    (h : l ≠ []) :
    lastUpdateTs (l.map (fun r => ⟨r.id, 0, 0, now⟩)) = some now := by
  induction l with
  | nil => exact absurd rfl h
  | cons r rs ih =>
    simp only [List.map_cons, lastUpdateTs]
    cases hrs : lastUpdateTs (rs.map (fun r => ⟨r.id, 0, 0, now⟩)) with
    | none => rfl
    | some t' =>
      have hrs' : rs ≠ [] := by
        intro e
        rw [e] at hrs
        simp [lastUpdateTs] at hrs
      rw [ih hrs'] at hrs
      have ht' : now = t' := by injection hrs
      rw [← ht']
      show some (if Timestamp.leB now now = true then now else now) = some now
      rw [ite_self]

/-- C5: a second reset pass in the same calendar month-and-year as a first
one is a no-op, whether or not the first pass reset anything. -/
theorem reset_idempotent_same_month (db : StatsDB) (now now2 : Timestamp)
    (hm : now2.month = now.month) (hy : now2.year = now.year) :
    resetMonthlyStats (resetMonthlyStats db now) now2 = resetMonthlyStats db now := by
  cases h : lastUpdateTs db.monthly with
  | none =>
    have h1 : resetMonthlyStats db now = db := by simp [resetMonthlyStats, h]
    rw [h1]
    simp [resetMonthlyStats, h]
  | some t =>
    by_cases hc : (t.month == now.month && t.year == now.year) = true
    · have h1 : resetMonthlyStats db now = db := by simp [resetMonthlyStats, h, hc]
      rw [h1]
      have hc2 : (t.month == now2.month && t.year == now2.year) = true := by
        rw [hm, hy]
        exact hc
      simp [resetMonthlyStats, h, hc2]
    · have hcf : (t.month == now.month && t.year == now.year) = false :=
        Bool.not_eq_true _ ▸ eq_false_of_ne_true hc
      have h1 : resetMonthlyStats db now =
          ⟨db.cumulative, db.monthly.map (fun r => ⟨r.id, 0, 0, now⟩)⟩ := by
        simp [resetMonthlyStats, h, hcf]
      rw [h1]
      have hne : db.monthly ≠ [] := by
        intro e
        rw [e] at h
        simp [lastUpdateTs] at h
      have h2 := lastUpdateTs_map_const now db.monthly hne
      have hcn : (now.month == now2.month && now.year == now2.year) = true := by
        simp [hm, hy]
      simp [resetMonthlyStats, h2, hcn]

/-- Witness for C5 at a concrete table, with the first pass firing. -/
theorem reset_idempotent_same_month_witness :
    Timestamp.month ⟨2025, 10, 9⟩ = Timestamp.month ⟨2025, 10, 5⟩ ∧
    resetMonthlyStats
        (resetMonthlyStats ⟨[], [⟨"a", 5, 6, ⟨2025, 9, 3⟩⟩]⟩ ⟨2025, 10, 5⟩)
        ⟨2025, 10, 9⟩ =
      resetMonthlyStats ⟨[], [⟨"a", 5, 6, ⟨2025, 9, 3⟩⟩]⟩ ⟨2025, 10, 5⟩ :=
  ⟨rfl, reset_idempotent_same_month ⟨[], [⟨"a", 5, 6, ⟨2025, 9, 3⟩⟩]⟩
    ⟨2025, 10, 5⟩ ⟨2025, 10, 9⟩ rfl rfl⟩

/-- C9: upserting an empty lease batch returns before acquiring the lock
or opening a transaction, leaving every lease row — timestamps included —
exactly as before. -/
theorem upsert_leases_empty_noop (rows : List LeaseRow) (now : Timestamp) :
    upsertDHCPLeases rows now [] = rows := rfl

/-- C10: a well-shaped 3-field line with negative decimal byte counts is
accepted by the client-traffic path — `strconv.ParseInt` performs no
non-negativity check — and the negative values flow through the delta into
the monthly total. -/
theorem wifi_accepts_negative_counts :
    parseWiFiStats "aa:bb:cc:dd:ee:ff -5 -7" =
      [⟨"aa:bb:cc:dd:ee:ff", -5, -7⟩] ∧
    (updateTrafficStats ⟨[], []⟩ ⟨2025, 10, 1⟩ "aa:bb:cc:dd:ee:ff" (-5) (-7)).2 =
      (-5, -7) ∧
    monthVal (updateTrafficStats ⟨[], []⟩ ⟨2025, 10, 1⟩ "aa:bb:cc:dd:ee:ff"
        (-5) (-7)).1 "aa:bb:cc:dd:ee:ff" = (-5, -7) := by
  refine ⟨?_, ?_, ?_⟩ <;> decide

/-! ## WAN parser lemmas -/

theorem all_takeWhile (p : Char → Bool) (l : List Char) :
    (l.takeWhile p).all p = true := by
  rw [List.all_eq_true]
  intro x hx
  exact List.mem_takeWhile_imp hx

/-- Both captured groups of a WAN match are non-empty digit runs. -/
theorem wanTail_shape (rest d1 d2 : List Char) (h : wanTail rest = some (d1, d2)) :
    d1 ≠ [] ∧ d1.all Char.isDigit = true ∧ d2 ≠ [] ∧ d2.all Char.isDigit = true := by
  simp only [wanTail] at h
  split_ifs at h with h1 h2 h3 h4
  have hp : (rest.dropWhile isRegexSpace).takeWhile Char.isDigit = d1 ∧
      (((rest.dropWhile isRegexSpace).dropWhile Char.isDigit).dropWhile
        isRegexSpace).takeWhile Char.isDigit = d2 := by
    have := h
    simp only [Option.some.injEq, Prod.mk.injEq] at this
    exact this
  obtain ⟨e1, e2⟩ := hp
  subst e1
  subst e2
  refine ⟨?_, all_takeWhile _ _, ?_, all_takeWhile _ _⟩
  · intro e
    rw [e] at h2
    exact h2 rfl
  · intro e
    rw [e] at h4
    exact h4 rfl

/-- Shape of the groups of a successful anchored WAN match attempt. -/
theorem matchWanAt_shape (cs d1 d2 : List Char)
    (h : matchWanAt cs = some (d1, d2)) :
    d1 ≠ [] ∧ d1.all Char.isDigit = true ∧ d2 ≠ [] ∧ d2.all Char.isDigit = true := by
  unfold matchWanAt at h
  split at h
  · split_ifs at h
    exact wanTail_shape _ _ _ h
  · exact Option.noConfusion h

/-- Shape of the groups of the leftmost WAN match. -/
theorem findWan_shape (cs : List Char) (d1 d2 : List Char)
    (h : findWan cs = some (d1, d2)) :
    d1 ≠ [] ∧ d1.all Char.isDigit = true ∧ d2 ≠ [] ∧ d2.all Char.isDigit = true := by
  induction cs with
  | nil => exact Option.noConfusion h
  | cons c cs ih =>
    simp only [findWan] at h
    cases hm : matchWanAt (c :: cs) with
    | some m =>
      rw [hm] at h
      have hm2 : m = (d1, d2) := by injection h
      rw [hm2] at hm
      exact matchWanAt_shape _ _ _ hm
    | none =>
      rw [hm] at h
      exact ih h

/-- `strconv.ParseInt` on a non-empty unsigned digit run reduces to the
64-bit range check. -/
theorem goParseInt64_digits (d : List Char) (hne : d ≠ [])
    (hall : d.all Char.isDigit = true) :
    goParseInt64 d =
      if digitsToNat d < 2 ^ 63 then some ((digitsToNat d : Nat) : Int) else none := by
  cases d with
  | nil => exact absurd rfl hne
  | cons c cs =>
    have hc : c.isDigit = true := List.all_eq_true.mp hall c (by simp)
    have hminus : (c == '-') = false := by
      cases hcc : c == '-' with
      | false => rfl
      | true =>
        have hce : c = '-' := by simpa using hcc
        rw [hce] at hc
        exact absurd hc (by decide)
    have hplus : (c == '+') = false := by
      cases hcc : c == '+' with
      | false => rfl
      | true =>
        have hce : c = '+' := by simpa using hcc
        rw [hce] at hc
        exact absurd hc (by decide)
    simp [goParseInt64, hminus, hplus, goParseInt64Core, hall]

/-- C6 (amended): empty input yields the no-data outcome and no error; a
non-empty input in which the WAN pattern occurs nowhere yields the
pattern-not-found error; when the pattern occurs and both captured numbers
fit in a signed 64-bit integer, the (rx, tx) pair of the first match is
returned; when a captured number exceeds that range, an integer-range
parse error is returned instead of the pair. -/
theorem parse_wan_outcomes (data : String) :
    (data = "" → parseWANStats data = WANParse.noData) ∧
    (data ≠ "" → findWan data.toList = none →
      parseWANStats data = WANParse.errPatternNotFound) ∧
    (∀ d1 d2, findWan data.toList = some (d1, d2) →
      digitsToNat d1 < 2 ^ 63 → digitsToNat d2 < 2 ^ 63 →
      parseWANStats data = WANParse.stats (digitsToNat d1) (digitsToNat d2)) ∧
    (∀ d1 d2, findWan data.toList = some (d1, d2) →
      ¬(digitsToNat d1 < 2 ^ 63 ∧ digitsToNat d2 < 2 ^ 63) →
      parseWANStats data = WANParse.errRange) := by
  have hnempty : ∀ d1 d2, findWan data.toList = some (d1, d2) → data ≠ "" := by
    intro d1 d2 hf e
    subst e
    exact Option.noConfusion hf
  refine ⟨?_, ?_, ?_, ?_⟩
  · intro h
    simp [parseWANStats, h]
  · intro hne hf
    have hf2 : findWan data.data = none := hf
    simp [parseWANStats, hne, hf2]
  · intro d1 d2 hf hb1 hb2
    obtain ⟨h1ne, h1all, h2ne, h2all⟩ := findWan_shape _ _ _ hf
    have hf2 : findWan data.data = some (d1, d2) := hf
    have hp1 : goParseInt64 d1 = some ((digitsToNat d1 : Nat) : Int) := by
      rw [goParseInt64_digits d1 h1ne h1all, if_pos hb1]
    have hp2 : goParseInt64 d2 = some ((digitsToNat d2 : Nat) : Int) := by
      rw [goParseInt64_digits d2 h2ne h2all, if_pos hb2]
    simp [parseWANStats, hnempty d1 d2 hf, hf2, hp1, hp2]
  · intro d1 d2 hf hnb
    obtain ⟨h1ne, h1all, h2ne, h2all⟩ := findWan_shape _ _ _ hf
    have hf2 : findWan data.data = some (d1, d2) := hf
    by_cases hb1 : digitsToNat d1 < 2 ^ 63
    · have hb2 : ¬digitsToNat d2 < 2 ^ 63 := fun hb2 => hnb ⟨hb1, hb2⟩
      have hp1 : goParseInt64 d1 = some ((digitsToNat d1 : Nat) : Int) := by
        rw [goParseInt64_digits d1 h1ne h1all, if_pos hb1]
      have hp2 : goParseInt64 d2 = none := by
        rw [goParseInt64_digits d2 h2ne h2all, if_neg hb2]
      simp [parseWANStats, hnempty d1 d2 hf, hf2, hp1, hp2]
    · have hp1 : goParseInt64 d1 = none := by
        rw [goParseInt64_digits d1 h1ne h1all, if_neg hb1]
      simp [parseWANStats, hnempty d1 d2 hf, hf2, hp1]

/-- Witness for C6 at a concrete input where the pattern occurs after
other text. -/
theorem parse_wan_outcomes_witness :
    findWan ("x wan: 12 34".toList) = some (['1', '2'], ['3', '4']) ∧
    parseWANStats "x wan: 12 34" =
      WANParse.stats (digitsToNat ['1', '2']) (digitsToNat ['3', '4']) :=
  ⟨by decide, (parse_wan_outcomes "x wan: 12 34").2.2.1 ['1', '2'] ['3', '4']
    (by decide) (by decide) (by decide)⟩

/-- C6 counterexample to the unamended claim: for this input the WAN
pattern occurs, but the first captured number (2^63) overflows
`strconv.ParseInt`'s signed 64-bit range, so the parser returns a parse
error rather than the (rx, tx) pair of the first match. -/
theorem parse_wan_overflow_counterexample :
    (findWan ("wan: 9223372036854775808 1".toList)).isSome = true ∧
    parseWANStats "wan: 9223372036854775808 1" = WANParse.errRange := by
  exact ⟨by decide, by decide⟩

/-- The client-traffic records are exactly one per accepted line. -/
theorem length_filterMap_parseClientLine (ls : List (List Char)) :
    (ls.filterMap parseClientLine).length =
      (ls.filter (fun l => (parseClientLine l).isSome)).length := by
  induction ls with
  | nil => rfl
  | cons l ls ih =>
    cases h : parseClientLine l <;>
      simp [List.filterMap_cons, List.filter_cons, h, ih]

/-- C7: malformed client-traffic lines are skipped one by one and never
abort the parse — a well-formed line yields its record even directly after
a malformed one, the output has exactly one record per well-formed line,
the record's MAC is the lowercased first field, and the empty input yields
the empty sequence rather than an error. -/
theorem wifi_parse_skips_malformed_lines (data : String) (hd : data ≠ "")
    (xs ys : List (List Char)) (m w : List Char) (r : ClientStats)
    (p0 p1 p2 : List Char)
    (hm : parseClientLine m = none)
    (hw : parseClientLine w = some r)
    (hf : fields w = [p0, p1, p2]) :
    parseWiFiStats "" = [] ∧
    parseWiFiStats data =
      (splitLines (trimGo data.toList)).filterMap parseClientLine ∧
    (xs ++ m :: w :: ys).filterMap parseClientLine =
      xs.filterMap parseClientLine ++ r :: ys.filterMap parseClientLine ∧
    (∀ ls : List (List Char),
      (ls.filterMap parseClientLine).length =
        (ls.filter (fun l => (parseClientLine l).isSome)).length) ∧
    r.MACAddress = String.mk (p0.map Char.toLower) := by
  refine ⟨rfl, ?_, ?_, length_filterMap_parseClientLine, ?_⟩
  · simp [parseWiFiStats, hd]
  · simp [List.filterMap_append, List.filterMap_cons, hm, hw]
  · simp only [parseClientLine, hf] at hw
    cases hq1 : goParseInt64 p1 with
    | none =>
      rw [hq1] at hw
      exact Option.noConfusion hw
    | some rx =>
      rw [hq1] at hw
      cases hq2 : goParseInt64 p2 with
      | none =>
        rw [hq2] at hw
        exact Option.noConfusion hw
      | some tx =>
        rw [hq2] at hw
        have hr : (⟨String.mk (p0.map Char.toLower), rx, tx⟩ : ClientStats) = r := by
          injection hw
        rw [← hr]

/-- Witness for C7: a malformed line between well-formed ones. -/
theorem wifi_parse_skips_malformed_lines_witness :
    parseClientLine ("badline".toList) = none ∧
    parseClientLine ("AA:xx 10 20".toList) = some ⟨"aa:xx", 10, 20⟩ ∧
    fields ("AA:xx 10 20".toList) = ["AA:xx".toList, ['1', '0'], ['2', '0']] ∧
    ([] ++ "badline".toList :: "AA:xx 10 20".toList :: []).filterMap
        parseClientLine =
      ([] : List (List Char)).filterMap parseClientLine ++
        (⟨"aa:xx", 10, 20⟩ : ClientStats) ::
          ([] : List (List Char)).filterMap parseClientLine :=
  ⟨by decide, by decide, by decide,
   (wifi_parse_skips_malformed_lines "z" (by decide) [] []
     ("badline".toList) ("AA:xx 10 20".toList) ⟨"aa:xx", 10, 20⟩
     ("AA:xx".toList) ['1', '0'] ['2', '0']
     (by decide) (by decide) (by decide)).2.2.1⟩

/-- C8: for every lease line the parser accepts, a hostname field of
exactly `*` becomes the literal `Unknown`, any other hostname field with
at least one whitespace-delimited token is cut down to its first token (a
hostname field without any token — the empty field of a backtracked match
— is kept as is), and the stored MAC address is the lowercased form of
the matched MAC. -/
theorem lease_hostname_and_mac (line : List Char) (g : LeaseMatch)
    (l : DHCPLease)
    (hg : leaseMatchLine line = some g)
    (hp : parseLeaseLine line = some l) :
    l.MACAddress = String.mk (g.mac.map Char.toLower) ∧
    (trimGo g.host = ['*'] → l.Hostname = "Unknown") ∧
    (∀ t0 ts, fields (trimGo g.host) = t0 :: ts → trimGo g.host ≠ ['*'] →
      l.Hostname = String.mk t0) ∧
    (trimGo g.host ≠ ['*'] → fields (trimGo g.host) = [] →
      l.Hostname = String.mk (trimGo g.host)) := by
  simp only [parseLeaseLine, hg] at hp
  cases hq : goParseInt64 g.etime with
  | none =>
    rw [hq] at hp
    exact Option.noConfusion hp
  | some t =>
    rw [hq] at hp
    have hl : (⟨String.mk (g.mac.map Char.toLower), t, String.mk g.ip,
        if trimGo g.host == ['*'] then "Unknown"
        else
          match fields (trimGo g.host) with
          | [] => String.mk (trimGo g.host)
          | t0 :: _ => String.mk t0,
        String.mk g.cid⟩ : DHCPLease) = l := by
      injection hp
    rw [← hl]
    refine ⟨rfl, ?_, ?_, ?_⟩
    · intro hstar
      simp [hstar]
    · intro t0 ts hfield hne
      have hbe : (trimGo g.host == ['*']) = false := beq_eq_false_iff_ne.mpr hne
      simp [hbe, hfield]
    · intro hne hfe
      have hbe : (trimGo g.host == ['*']) = false := beq_eq_false_iff_ne.mpr hne
      simp [hbe, hfe]

/-- Witness for C8 at two concrete accepted lease lines: one with a `*`
hostname, and one with two spaces before the client id, which the engine
accepts by backtracking the greedy whitespace run, giving an empty
hostname field. -/
theorem lease_hostname_and_mac_witness :
    leaseMatchLine ("1234 AA:BB:CC:0D:EE:F1 10.0.0.2 * 01:ab".toList) =
      some ⟨"1234".toList, "AA:BB:CC:0D:EE:F1".toList, "10.0.0.2".toList,
            "*".toList, "01:ab".toList⟩ ∧
    parseLeaseLine ("1234 AA:BB:CC:0D:EE:F1 10.0.0.2 * 01:ab".toList) =
      some ⟨"aa:bb:cc:0d:ee:f1", 1234, "10.0.0.2", "Unknown", "01:ab"⟩ ∧
    (⟨"aa:bb:cc:0d:ee:f1", 1234, "10.0.0.2", "Unknown", "01:ab"⟩ :
        DHCPLease).MACAddress =
      String.mk ("AA:BB:CC:0D:EE:F1".toList.map Char.toLower) ∧
    (⟨"aa:bb:cc:0d:ee:f1", 1234, "10.0.0.2", "Unknown", "01:ab"⟩ :
        DHCPLease).Hostname = "Unknown" ∧
    leaseMatchLine ("1234 aa:bb:cc:dd:ee:f2 10.0.0.2  01:ab".toList) =
      some ⟨"1234".toList, "aa:bb:cc:dd:ee:f2".toList, "10.0.0.2".toList,
            [], "01:ab".toList⟩ ∧
    parseLeaseLine ("1234 aa:bb:cc:dd:ee:f2 10.0.0.2  01:ab".toList) =
      some ⟨"aa:bb:cc:dd:ee:f2", 1234, "10.0.0.2", "", "01:ab"⟩ ∧
    (⟨"aa:bb:cc:dd:ee:f2", 1234, "10.0.0.2", "", "01:ab"⟩ :
        DHCPLease).Hostname = String.mk (trimGo []) :=
  ⟨by decide, by decide,
   (lease_hostname_and_mac ("1234 AA:BB:CC:0D:EE:F1 10.0.0.2 * 01:ab".toList)
     ⟨"1234".toList, "AA:BB:CC:0D:EE:F1".toList, "10.0.0.2".toList,
      "*".toList, "01:ab".toList⟩
     ⟨"aa:bb:cc:0d:ee:f1", 1234, "10.0.0.2", "Unknown", "01:ab"⟩
     (by decide) (by decide)).1,
   (lease_hostname_and_mac ("1234 AA:BB:CC:0D:EE:F1 10.0.0.2 * 01:ab".toList)
     ⟨"1234".toList, "AA:BB:CC:0D:EE:F1".toList, "10.0.0.2".toList,
      "*".toList, "01:ab".toList⟩
     ⟨"aa:bb:cc:0d:ee:f1", 1234, "10.0.0.2", "Unknown", "01:ab"⟩
     (by decide) (by decide)).2.1 (by decide),
   by decide, by decide,
   (lease_hostname_and_mac ("1234 aa:bb:cc:dd:ee:f2 10.0.0.2  01:ab".toList)
     ⟨"1234".toList, "aa:bb:cc:dd:ee:f2".toList, "10.0.0.2".toList,
      [], "01:ab".toList⟩
     ⟨"aa:bb:cc:dd:ee:f2", 1234, "10.0.0.2", "", "01:ab"⟩
     (by decide) (by decide)).2.2.2 (by decide) (by decide)⟩
